import Mathlib

/-!
Verification of the asset-allocation backtesting engine
(`src/asset_allocation_models_backtesting.py`) against its specification.

The numeric carrier `PFloat` models the values flowing through the
numpy/pandas pipeline exactly: a finite value is an exact rational, and the
IEEE special values `inf`, `-inf` and `NaN` are explicit constructors with
the usual propagation rules for the arithmetic the source uses.  No rounding
is modelled: every finite operation of the source (sums, products, ratios,
percent changes) is exact rational arithmetic here.  The only operation that
can leave the rationals is the square root inside the rolling standard
deviation; `PFloat.sqrt` returns the exact root when the radicand is a
square of a rational and the marker `untrk` (an untracked finite real)
otherwise.  Operations involving `untrk` return `untrk` (after NaN
propagation); no theorem in this file evaluates a computation through the
`untrk` constructor - every concrete input below is chosen so that each
square root the evaluated code path takes is exact.
-/

/-- The value carrier: exact rationals plus the IEEE special values, and a
marker for irrational intermediates that no theorem evaluates. -/
inductive PFloat where
  | fin : ℚ → PFloat
  | inf : PFloat
  | ninf : PFloat
  | nan : PFloat
  | untrk : PFloat
  deriving DecidableEq, Repr

/-- IEEE negation. -/
def PFloat.neg : PFloat → PFloat
  | .fin q => .fin (-q)
  | .inf => .ninf
  | .ninf => .inf
  | .nan => .nan
  | .untrk => .untrk

/-- IEEE addition (NaN propagates; `inf + -inf = NaN`); `untrk` absorbs
everything but NaN. -/
def PFloat.add : PFloat → PFloat → PFloat
  | .nan, _ => .nan
  | _, .nan => .nan
  | .untrk, _ => .untrk
  | _, .untrk => .untrk
  | .inf, .ninf => .nan
  | .ninf, .inf => .nan
  | .inf, _ => .inf
  | _, .inf => .inf
  | .ninf, _ => .ninf
  | _, .ninf => .ninf
  | .fin a, .fin b => .fin (a + b)

/-- IEEE multiplication (`0 * inf = NaN`); `untrk` absorbs everything but
NaN. -/
def PFloat.mul : PFloat → PFloat → PFloat
  | .nan, _ => .nan
  | _, .nan => .nan
  | .untrk, _ => .untrk
  | _, .untrk => .untrk
  | .inf, .inf => .inf
  | .inf, .ninf => .ninf
  | .ninf, .inf => .ninf
  | .ninf, .ninf => .inf
  | .inf, .fin b => if b = 0 then .nan else if 0 < b then .inf else .ninf
  | .fin a, .inf => if a = 0 then .nan else if 0 < a then .inf else .ninf
  | .ninf, .fin b => if b = 0 then .nan else if 0 < b then .ninf else .inf
  | .fin a, .ninf => if a = 0 then .nan else if 0 < a then .ninf else .inf
  | .fin a, .fin b => .fin (a * b)

/-- IEEE division with an unsigned zero (`x / 0` is `±inf` for `x ≠ 0` and
NaN for `0 / 0`, exactly what numpy and pandas produce on the source's
divisions); `untrk` absorbs everything but NaN. -/
def PFloat.div : PFloat → PFloat → PFloat
  | .nan, _ => .nan
  | _, .nan => .nan
  | .untrk, _ => .untrk
  | _, .untrk => .untrk
  | .inf, .inf => .nan
  | .inf, .ninf => .nan
  | .ninf, .inf => .nan
  | .ninf, .ninf => .nan
  | .inf, .fin b => if 0 ≤ b then .inf else .ninf
  | .ninf, .fin b => if 0 ≤ b then .ninf else .inf
  | .fin _, .inf => .fin 0
  | .fin _, .ninf => .fin 0
  | .fin a, .fin b =>
      if b = 0 then (if a = 0 then .nan else if 0 < a then .inf else .ninf)
      else .fin (a / b)

instance : Neg PFloat := ⟨PFloat.neg⟩
instance : Add PFloat := ⟨PFloat.add⟩
instance : Mul PFloat := ⟨PFloat.mul⟩
instance : Div PFloat := ⟨PFloat.div⟩

/-- IEEE subtraction, as addition of the negation. -/
def PFloat.sub (a b : PFloat) : PFloat := a + (-b)

instance : Sub PFloat := ⟨PFloat.sub⟩

/-- Absolute value. -/
def PFloat.abs : PFloat → PFloat
  | .fin q => .fin |q|
  | .inf => .inf
  | .ninf => .inf
  | .nan => .nan
  | .untrk => .untrk

/-- Bisection step for the integer square root of `n` (structural recursion
on fuel, so it evaluates by plain reduction): the invariant is
`lo^2 ≤ n < hi^2`. -/
def isqrtGo (n : Nat) : Nat → Nat → Nat → Nat
  | 0, lo, _ => lo
  | fuel + 1, lo, hi =>
      if hi ≤ lo + 1 then lo
      else
        let mid := (lo + hi) / 2
        if mid * mid ≤ n then isqrtGo n fuel mid hi
        else isqrtGo n fuel lo mid

/-- Floor integer square root by bisection; 128 fuel steps cover every
number below `2 ^ 254`. -/
def isqrt (n : Nat) : Nat := isqrtGo n 128 0 (n + 1)

/-- The exact rational square root, when it exists. -/
def ratSqrt? (q : ℚ) : Option ℚ :=
  let n := isqrt q.num.toNat
  let d := isqrt q.den
  if (n : Int) * n = q.num ∧ d * d = q.den then some ((n : ℚ) / (d : ℚ)) else none

/-- Square root: exact on rational squares, `untrk` on other nonnegative
finite values (an irrational real the development never evaluates), NaN on
negatives, following IEEE on the specials. -/
def PFloat.sqrt : PFloat → PFloat
  | .fin q =>
      if q < 0 then .nan
      else match ratSqrt? q with
        | some r => .fin r
        | none => .untrk
  | .inf => .inf
  | .ninf => .nan
  | .nan => .nan
  | .untrk => .untrk

/-- IEEE strict less-than as a Boolean: false whenever NaN is involved (and
on the untracked marker, which no evaluated computation reaches). -/
def PFloat.ltb : PFloat → PFloat → Bool
  | .nan, _ => false
  | _, .nan => false
  | .untrk, _ => false
  | _, .untrk => false
  | .ninf, .ninf => false
  | .ninf, _ => true
  | _, .ninf => false
  | .inf, _ => false
  | _, .inf => true
  | .fin a, .fin b => decide (a < b)

/-- Is this value NaN?  (`pandas.fillna` and `dropna` test exactly this.) -/
def PFloat.isNan : PFloat → Bool
  | .nan => true
  | _ => false

/-- `pandas.fillna(0)` on one value. -/
def PFloat.fillna0 (x : PFloat) : PFloat := if x.isNan then .fin 0 else x

/-- `pandas.replace([inf, -inf], 0)` on one value. -/
def PFloat.replaceInf0 : PFloat → PFloat
  | .inf => .fin 0
  | .ninf => .fin 0
  | x => x

/-- numpy/pandas summation (left fold starting from 0.0). -/
def listSum (xs : List PFloat) : PFloat := xs.foldl (· + ·) (.fin 0)

/-- Equality of embedded results is decidable (used by the concrete-input
theorems below). -/
instance {ε α : Type} [DecidableEq ε] [DecidableEq α] : DecidableEq (Except ε α) :=
  fun a b =>
    match a, b with
    | .ok x, .ok y =>
        if h : x = y then isTrue (by rw [h])
        else isFalse (by intro hc; cases hc; exact h rfl)
    | .error x, .error y =>
        if h : x = y then isTrue (by rw [h])
        else isFalse (by intro hc; cases hc; exact h rfl)
    | .ok _, .error _ => isFalse (by intro hc; cases hc)
    | .error _, .ok _ => isFalse (by intro hc; cases hc)

/-!
Embedding of `src/asset_allocation_models_backtesting.py`.

Tables (pandas DataFrames) are lists of rows; a row is a list of per-asset
values.  The caller's price table is a table of exact rationals (the input
contract: numeric prices, no missing values).  The scipy SLSQP optimizer
that `msr`, `gmv`, `mdp` and `rp` invoke is external library code, modelled
by a `Solver` oracle parameter; no theorem below evaluates those branches.
-/

/-- The Python exceptions the embedded code can raise. -/
inductive PyError where
  | nameError : String → PyError
  | typeError : String → PyError
  | valueError : String → PyError
  | zeroDivisionError : PyError
  deriving DecidableEq, Repr

/-- Oracle for `scipy.optimize.minimize`: the four optimizer-backed
strategies hand their snapshot to it and return its iterate. -/
structure Solver where
  msr : List PFloat → List (List PFloat) → List PFloat
  gmv : List (List PFloat) → List PFloat
  mdp : List PFloat → List (List PFloat) → List PFloat
  rp : List (List PFloat) → List PFloat

/-- A solver oracle used by concrete inputs whose strategy never consults
it. -/
def trivialSolver : Solver where
  msr := fun _ _ => []
  gmv := fun _ => []
  mdp := fun _ _ => []
  rp := fun _ => []

/-- `CrossSectional.ew` (source lines 64-74): `noa = er.shape[0]`, then
`np.ones_like(er) * (1/noa)` — the values of `er` are never read, only its
length; `1/noa` raises ZeroDivisionError when the vector is empty. -/
def CrossSectional.ew (er : List PFloat) : Except PyError (List PFloat) :=
  if er.length = 0 then .error .zeroDivisionError
  else .ok ((List.replicate er.length (PFloat.fin 1)).map
      (fun o => o * PFloat.fin (1 / (er.length : ℚ))))

/-- `CrossSectional.msr` (lines 76-101): builds the SLSQP problem and
returns the optimizer's iterate, here the oracle's answer. -/
def CrossSectional.msr (solver : Solver) (er : List PFloat)
    (cov : List (List PFloat)) : List PFloat := solver.msr er cov

/-- `CrossSectional.gmv` (lines 103-126): SLSQP via the oracle. -/
def CrossSectional.gmv (solver : Solver) (cov : List (List PFloat)) :
    List PFloat := solver.gmv cov

/-- `CrossSectional.mdp` (lines 128-153): SLSQP via the oracle. -/
def CrossSectional.mdp (solver : Solver) (vol : List PFloat)
    (cov : List (List PFloat)) : List PFloat := solver.mdp vol cov

/-- `CrossSectional.rp` (lines 155-182): SLSQP via the oracle. -/
def CrossSectional.rp (solver : Solver) (cov : List (List PFloat)) :
    List PFloat := solver.rp cov

/-- `CrossSectional.emv` (lines 184-195): `inv_vol = 1 / vol`, then
`inv_vol / inv_vol.sum()`.  There is no guard: a zero volatility produces
`inf` in `inv_vol` and then `inf / inf = NaN` in the weights. -/
def CrossSectional.emv (vol : List PFloat) : List PFloat :=
  let inv_vol := vol.map (fun v => PFloat.fin 1 / v)
  inv_vol.map (fun x => x / listSum inv_vol)

/-- `pandas.Series.shift()` (one-period lag, NaN in front). -/
def shift1 (xs : List PFloat) : List PFloat :=
  match xs with
  | [] => []
  | _ => PFloat.nan :: xs.dropLast

/-- `PortRiskFreeWeights.vt` (lines 203-216).  Lines 212-214 bind a local
`weights` series (the computation cannot raise on a numeric series), but
line 216 is `return weigths` — a name that is never defined — so every call
raises NameError.  (A window of 0 would make `rolling` itself raise first;
no theorem below evaluates that case.) -/
def PortRiskFreeWeights.vt (port_rets : List PFloat) (period : Nat)
    (vol_target : PFloat) : Except PyError (List PFloat) :=
  if period = 0 then .error (.valueError "window must be greater than 0")
  else .error (.nameError "weigths")

/-- `PortRiskFreeWeights.cvt` (lines 218-236).  `rolling(period).apply`
invokes `calculate_CVaR` on each full window with `args=(delta)` — a bare
float, not a tuple — so the first full window raises TypeError while
unpacking it (and `calculate_CVaR` itself misspells `quantile` as
`quatile`, which would raise AttributeError next).  When the series is
shorter than the window the callback is never invoked: the rolling apply is
all NaN and lines 232-234 run through. -/
def PortRiskFreeWeights.cvt (port_rets : List PFloat) (period : Nat)
    (delta cvar_target : PFloat) : Except PyError (List PFloat) :=
  if period = 0 then .error (.valueError "window must be greater than 0")
  else if period ≤ port_rets.length then
    .error (.typeError "argument after star must be an iterable")
  else
    let rolling_CVaR := (List.replicate port_rets.length PFloat.nan).map
      (fun x => -(x.fillna0))
    let w1 := (rolling_CVaR.map (fun v => cvar_target / v)).map PFloat.replaceInf0
    let w2 := (shift1 w1).map PFloat.fillna0
    .ok (w2.map (fun x => if PFloat.ltb (.fin 1) x then .fin 1 else x))

/-- The class under test: `__init__` stores the price table and the
annualization period; returns, expected returns, volatilities and
covariances are derived from them below. -/
structure AssetAllocationBacktesting where
  price_df : List (List ℚ)
  period : Nat

/-- One row of `pct_change`: `cur / prev - 1` per asset. -/
def pctChangeRow (prev cur : List ℚ) : List PFloat :=
  List.zipWith (fun p c => PFloat.fin c / PFloat.fin p - PFloat.fin 1) prev cur

/-- `self.rets = price_df.pct_change().dropna()` (line 43): period-over-
period relative change, with every row containing a NaN dropped (the first
row always is). -/
def AssetAllocationBacktesting.rets (B : AssetAllocationBacktesting) :
    List (List PFloat) :=
  (List.zipWith pctChangeRow B.price_df.dropLast B.price_df.tail).filter
    (fun row => row.all (fun x => !x.isNan))

/-- Number of asset columns. -/
def AssetAllocationBacktesting.ncols (B : AssetAllocationBacktesting) : Nat :=
  (B.price_df.headD []).length

/-- `self.er = np.array(self.rets * self.period)` (line 46). -/
def AssetAllocationBacktesting.er (B : AssetAllocationBacktesting) :
    List (List PFloat) :=
  B.rets.map (fun row => row.map (fun x => x * PFloat.fin (B.period : ℚ)))

/-- The trailing window of column `j` ending at row `i` (inclusive). -/
def windowCol (rets : List (List PFloat)) (period i j : Nat) : List PFloat :=
  ((rets.drop (i + 1 - period)).take period).map (fun row => row.getD j PFloat.nan)

/-- Sample standard deviation with `ddof = 1` (the pandas default). -/
def sampleStd (xs : List PFloat) : PFloat :=
  let n := xs.length
  let m := listSum xs / PFloat.fin (n : ℚ)
  PFloat.sqrt (listSum (xs.map (fun x => (x - m) * (x - m))) /
    PFloat.fin ((n - 1 : Nat) : ℚ))

/-- Sample covariance of two columns with `ddof = 1`. -/
def sampleCov (xs ys : List PFloat) : PFloat :=
  let n := xs.length
  let mx := listSum xs / PFloat.fin (n : ℚ)
  let my := listSum ys / PFloat.fin (n : ℚ)
  listSum (List.zipWith (fun x y => (x - mx) * (y - my)) xs ys) /
    PFloat.fin ((n - 1 : Nat) : ℚ)

/-- `self.vol = np.array(self.rets.rolling(self.period).std() *
np.sqrt(self.period))` (line 49): NaN until a full window exists. -/
def AssetAllocationBacktesting.vol (B : AssetAllocationBacktesting) :
    List (List PFloat) :=
  let r := B.rets
  (List.range r.length).map (fun i =>
    (List.range B.ncols).map (fun j =>
      (if i + 1 < B.period then PFloat.nan
       else sampleStd (windowCol r B.period i j)) *
        PFloat.sqrt (.fin (B.period : ℚ))))

/-- `self.cov` (lines 52-53): rolling covariance times the period, reshaped
to one matrix per return row; NaN matrices until a full window exists. -/
def AssetAllocationBacktesting.cov (B : AssetAllocationBacktesting) :
    List (List (List PFloat)) :=
  let r := B.rets
  (List.range r.length).map (fun i =>
    (List.range B.ncols).map (fun j =>
      (List.range B.ncols).map (fun k =>
        (if i + 1 < B.period then PFloat.nan
         else sampleCov (windowCol r B.period i j) (windowCol r B.period i k)) *
          PFloat.fin (B.period : ℚ))))

/-- `transaction_cost` (lines 238-253): the previous row of weights
(`shift().fillna(0)`) is grown by one period of returns, renormalized to
row sum 1, and the per-asset cost is `abs(weights - prev) * cost` with NaN
filled by 0 at the end. -/
def AssetAllocationBacktesting.transaction_cost
    (B : AssetAllocationBacktesting) (weights_df rets_df : List (List PFloat))
    (cost : PFloat) : List (List PFloat) :=
  let retsSliced := rets_df.drop (B.period - 1)
  let shifted : List (List PFloat) :=
    match weights_df with
    | [] => []
    | _ => List.replicate (weights_df.headD []).length (PFloat.fin 0) ::
        weights_df.dropLast
  let grown := List.zipWith (fun wrow rrow =>
      List.zipWith (fun w r => w * (PFloat.fin 1 + r)) wrow rrow)
    shifted retsSliced
  let prev_weights_df := grown.map (fun row => row.map (fun x => x / listSum row))
  let cost_df := List.zipWith (fun wrow prow =>
      List.zipWith (fun w p => (w - p).abs * cost) wrow prow)
    weights_df prev_weights_df
  cost_df.map (fun row => row.map PFloat.fillna0)

/-- The dispatch inside the `run` loop (lines 268-279): `None` for an
unrecognized key — no branch of the if/elif chain assigns anything. -/
def csAlloc (solver : Solver) (erRow volRow : List PFloat)
    (covMat : List (List PFloat)) (cs_model : String) :
    Option (Except PyError (List PFloat)) :=
  if cs_model = "EW" then some (CrossSectional.ew erRow)
  else if cs_model = "MSR" then some (.ok (CrossSectional.msr solver erRow covMat))
  else if cs_model = "GMV" then some (.ok (CrossSectional.gmv solver covMat))
  else if cs_model = "MDP" then some (.ok (CrossSectional.mdp solver volRow covMat))
  else if cs_model = "RP" then some (.ok (CrossSectional.rp solver covMat))
  else if cs_model = "EMV" then some (.ok (CrossSectional.emv volRow))
  else none

/-- The `run` loop (line 267): `for i, index in enumerate(rets.index
[self.period - 1:])` — the eligible dates start at return-row
`period - 1`, but the snapshot arrays `er`, `vol` and `cov` are indexed
with the 0-based counter `i` itself, exactly as the source does. -/
def csLoopStage (B : AssetAllocationBacktesting) (solver : Solver)
    (cs_model : String) : Except PyError (List (List PFloat)) :=
  (List.range (B.rets.length - (B.period - 1))).foldlM (fun acc i =>
    match csAlloc solver (B.er.getD i []) (B.vol.getD i []) (B.cov.getD i [])
        cs_model with
    | none => .ok acc
    | some (.ok w) => .ok (acc ++ [w])
    | some (.error e) => .error e) []

/-- Lines 281-282: the weight history frame, `fillna(0)`. -/
def csWeightsStage (B : AssetAllocationBacktesting) (solver : Solver)
    (cs_model : String) : Except PyError (List (List PFloat)) :=
  (csLoopStage B solver cs_model).map
    (fun rows => rows.map (fun row => row.map PFloat.fillna0))

/-- `shift()` on a frame: a NaN row in front, last row dropped. -/
def shiftRows (rows : List (List PFloat)) : List (List PFloat) :=
  match rows with
  | [] => []
  | _ => List.replicate (rows.headD []).length PFloat.nan :: rows.dropLast

/-- Line 284: `cs_rets = cs_weights.shift() * rets.iloc[self.period - 1:, :]`.
pandas aligns the frames on their index; the indices coincide for every
recognized strategy key, and the only mismatched case the driver produces
is the empty weight frame of an unrecognized key, where alignment makes
every entry NaN. -/
def csRetsStage (cs_weights retsSliced : List (List PFloat)) :
    List (List PFloat) :=
  if cs_weights.length = retsSliced.length then
    List.zipWith (fun wrow rrow => List.zipWith (fun w r => w * r) wrow rrow)
      (shiftRows cs_weights) retsSliced
  else retsSliced.map (fun row => row.map (fun _ => PFloat.nan))

/-- `sum(axis=1)` with pandas' default `skipna`: NaN entries contribute
nothing, an all-NaN row sums to 0. -/
def rowSumSkipna (row : List PFloat) : PFloat :=
  listSum (row.filter (fun x => !x.isNan))

/-- Line 285: the cross-sectional portfolio return series. -/
def csPortRetsStage (cs_rets : List (List PFloat)) : List PFloat :=
  cs_rets.map rowSumSkipna

/-- Lines 288-293: the overlay dispatch.  `VT` and `CVT` call the broken
overlay methods (with their default targets); `None` sets `ts_weights = 1`;
any other key assigns nothing — `ts_weights` stays unbound, but the next
statement fails on `cs_weight` before ever reading it, so the stage itself
completes. -/
def tsStage (ts_model : Option String) (cs_port_rets : List PFloat)
    (period : Nat) : Except PyError Unit :=
  match ts_model with
  | none => .ok ()
  | some s =>
      if s = "VT" then
        (PortRiskFreeWeights.vt cs_port_rets period (.fin (1 / 10))).map
          (fun _ => ())
      else if s = "CVT" then
        (PortRiskFreeWeights.cvt cs_port_rets period (.fin (1 / 100))
          (.fin (1 / 20))).map (fun _ => ())
      else .ok ()

/-- The triple `run`'s docstring promises (never produced: see `run`). -/
structure RunOutput where
  port_weights : List (List PFloat)
  port_asset_rets : List (List PFloat)
  port_rets : List PFloat
  deriving DecidableEq, Repr

/-- `run` (lines 255-306).  After the cross-sectional loop, the weight
frame, the cross-sectional return series and the overlay dispatch, line 296
evaluates `cs_weight.multiply(ts_weights, axis=0)` — but the name bound on
line 281 is `cs_weights`, so evaluating `cs_weight` raises NameError for
every configuration that reaches it.  The run therefore never reaches the
transaction-cost call of line 299 (which would rebind the local `cost` to
`self.transaction_cost(port_weights, rets)`, discarding the caller's cost
rate in favour of the 0.0005 default) and never returns the promised
triple. -/
def AssetAllocationBacktesting.run (B : AssetAllocationBacktesting)
    (solver : Solver) (cs_model : String) (ts_model : Option String)
    (cost : PFloat) : Except PyError RunOutput :=
  match csWeightsStage B solver cs_model with
  | .error e => .error e
  | .ok cs_weights =>
      let cs_rets := csRetsStage cs_weights (B.rets.drop (B.period - 1))
      let cs_port_rets := csPortRetsStage cs_rets
      match tsStage ts_model cs_port_rets B.period with
      | .error e => .error e
      | .ok _ => .error (.nameError "cs_weight")

/-- The drifted prior-period weights the specification describes: the
previous row of weights grown by one period of asset returns and
renormalized to sum to 1 (exact rational arithmetic; compared against the
embedded `transaction_cost` in claim C5's theorem). -/
def driftWeights (Wq Rq : List (List ℚ)) (period t : Nat) : List ℚ :=
  let grown := List.zipWith (fun w r => w * (1 + r)) (Wq.getD (t - 1) [])
    ((Rq.drop (period - 1)).getD t [])
  grown.map (fun x => x / grown.sum)

/-- A concrete 2-asset, 6-date price table (window 4 below).  The induced
return rows are exact rationals, and every rolling standard deviation the
evaluated code paths take is the square root of a rational square, so the
whole pipeline evaluates exactly. -/
def samplePrices : List (List ℚ) :=
  [[1, 1],
   [11 / 10, 21 / 20],
   [539 / 500, 2121 / 2000],
   [26411 / 25000, 214221 / 200000],
   [1294139 / 1250000, 21636321 / 20000000],
   [1294139 / 1250000, 21636321 / 20000000]]

/-- The concrete backtest instance: `samplePrices` with window 4. -/
def sampleBacktest : AssetAllocationBacktesting := ⟨samplePrices, 4⟩

set_option maxRecDepth 8000

/-! Arithmetic facts about the carrier, used by the general theorems. -/

theorem fin_add_fin (a b : ℚ) : PFloat.fin a + PFloat.fin b = .fin (a + b) := rfl

theorem fin_mul_fin (a b : ℚ) : PFloat.fin a * PFloat.fin b = .fin (a * b) := rfl

theorem fin_sub_fin (a b : ℚ) : PFloat.fin a - PFloat.fin b = .fin (a - b) := by
  show PFloat.fin a + PFloat.fin (-b) = .fin (a - b)
  rw [fin_add_fin]; ring_nf

theorem fin_div_fin (a b : ℚ) (hb : b ≠ 0) :
    PFloat.fin a / PFloat.fin b = .fin (a / b) := by
  show PFloat.div (.fin a) (.fin b) = .fin (a / b)
  simp [PFloat.div, hb]

theorem fin_div_inf (a : ℚ) : PFloat.fin a / PFloat.inf = .fin 0 := rfl

theorem one_div_fin_zero : PFloat.fin 1 / PFloat.fin 0 = .inf := by
  show PFloat.div (.fin 1) (.fin 0) = .inf
  simp [PFloat.div]

theorem inf_div_inf : PFloat.inf / PFloat.inf = .nan := rfl

theorem fin_sub_nan (a : ℚ) : PFloat.fin a - PFloat.nan = .nan := rfl

theorem nan_mul_fin (c : ℚ) : PFloat.nan * PFloat.fin c = .nan := rfl

theorem abs_fin (a : ℚ) : (PFloat.fin a).abs = .fin |a| := rfl

theorem abs_nan : PFloat.nan.abs = .nan := rfl

theorem listSum_map_fin (qs : List ℚ) : listSum (qs.map .fin) = .fin qs.sum := by
  have h : ∀ (l : List ℚ) (a : ℚ),
      (l.map PFloat.fin).foldl (· + ·) (.fin a) = .fin (l.foldl (· + ·) a) := by
    intro l
    induction l with
    | nil => intro a; rfl
    | cons x xs ih => intro a; simpa [fin_add_fin] using ih (a + x)
  rw [listSum, h qs 0, ← List.sum_eq_foldl]

/-- A left fold of IEEE addition that starts from `inf` and only ever adds
finite values or `inf` stays `inf`. -/
theorem foldl_add_from_inf (xs : List PFloat)
    (hfin : ∀ x ∈ xs, x = PFloat.inf ∨ ∃ q, x = .fin q) :
    xs.foldl (· + ·) PFloat.inf = .inf := by
  induction xs with
  | nil => rfl
  | cons y ys ih =>
      have hy := hfin y (by simp)
      have hstep : PFloat.inf + y = PFloat.inf := by
        rcases hy with h | ⟨q, h⟩ <;> subst h <;> rfl
      rw [List.foldl_cons, hstep]
      exact ih (fun x hx => hfin x (by simp [hx]))

/-- A sum over values that are each finite or `inf`, containing at least
one `inf`, is `inf`. -/
theorem listSum_eq_inf (xs : List PFloat)
    (hfin : ∀ x ∈ xs, x = PFloat.inf ∨ ∃ q, x = .fin q)
    (hmem : PFloat.inf ∈ xs) :
    listSum xs = .inf := by
  rw [listSum]
  have main : ∀ (l : List PFloat), (∀ x ∈ l, x = PFloat.inf ∨ ∃ q, x = .fin q) →
      ∀ (a : ℚ), PFloat.inf ∈ l → l.foldl (· + ·) (.fin a) = .inf := by
    intro l
    induction l with
    | nil => intro _ a h; cases h
    | cons y ys ih =>
        intro hl a hm
        rw [List.foldl_cons]
        rcases hl y (by simp) with hy | ⟨q, hy⟩
        · subst hy
          rw [show PFloat.fin a + PFloat.inf = PFloat.inf from rfl]
          exact foldl_add_from_inf ys (fun x hx => hl x (by simp [hx]))
        · subst hy
          rw [fin_add_fin]
          have : PFloat.inf ∈ ys := by
            rcases List.mem_cons.mp hm with h | h
            · cases h
            · exact h
          exact ih (fun x hx => hl x (by simp [hx])) _ this
  exact main xs hfin 0 hmem

/-- Claim C1 (code bug).  The claim says `run(cs_model, ts_model, cost)`
returns the triple (combined weight history, per-asset net returns, net
return series) with the combined weights equal to the cross-sectional
weights times the exposure multiplier (identically 1 when `ts_model` is
`None`).  On a well-formed price table (strictly increasing dates, no
missing values, `window + 1 = 5` or more rows) with the valid selection
`('EW', None, 0.0005)`, the driver instead raises
`NameError: name 'cs_weight' is not defined` at the combine step (line 296
misspells `cs_weights`): no triple is ever returned. -/
theorem C1_run_raises_not_returns :
    sampleBacktest.run trivialSolver "EW" none (.fin (1 / 2000)) =
      .error (.nameError "cs_weight") := by
  with_unfolding_all decide

/-- Claim C2 (code bug).  The claim says the allocator at each eligible
rebalance date receives the Rolling Snapshot of the trailing window ending
at that date itself.  In the source, eligible dates start at return-row
`period - 1 = 3`, but the loop of line 267 indexes `er`/`vol`/`cov` with
its 0-based counter: at the first eligible date the EMV allocator receives
`vol[0]` — the undefined all-NaN snapshot of return-row 0 — so its weight
row comes out `[NaN, NaN]` and is zero-filled to `[0, 0]`; the snapshot
that ends at that date is `vol[3] = [0.12, 0.04]`, whose EMV weights are
`[1/4, 3/4]`.  The stored history (both eligible dates zero-filled)
therefore differs from the allocator's output on the date's own snapshot. -/
theorem C2_snapshot_misaligned :
    csWeightsStage sampleBacktest trivialSolver "EMV" =
        .ok [[.fin 0, .fin 0], [.fin 0, .fin 0]] ∧
      sampleBacktest.vol.getD 3 [] = [.fin (12 / 100), .fin (4 / 100)] ∧
      CrossSectional.emv (sampleBacktest.vol.getD 3 []) =
        [.fin (1 / 4), .fin (3 / 4)] := by
  refine ⟨?_, ?_, ?_⟩ <;> with_unfolding_all decide

/-- Claim C3 (code bug).  The claim says `vt` returns the lagged, capped
ratio of target to trailing realized volatility.  Line 216 of the source
returns the undefined name `weigths`, so `vt` raises NameError on every
call — here on a concrete three-period return series with window 2 and the
default 0.1 target — and returns no multiplier at all. -/
theorem C3_vt_raises_nameError :
    PortRiskFreeWeights.vt [.fin (1 / 100), .fin (1 / 50), .fin 0] 2
      (.fin (1 / 10)) = .error (.nameError "weigths") := by
  with_unfolding_all decide

/-- Claim C4 (code bug).  The claim says `cvt` returns the lagged, capped
ratio of target CVaR to trailing realized CVaR.  As soon as one full
window exists, `rolling(period).apply(calculate_CVaR, args=(delta))`
raises TypeError — `args=(delta)` is a bare float, not a tuple — and
`calculate_CVaR` itself misspells `quantile` as `quatile`; no multiplier
is ever returned. -/
theorem C4_cvt_raises_typeError :
    PortRiskFreeWeights.cvt [.fin (1 / 100), .fin (-1 / 50)] 2 (.fin (1 / 100))
      (.fin (1 / 20)) = .error (.typeError "argument after star must be an iterable") := by
  with_unfolding_all decide

/-- Claim C6 (code bug).  The claim says per-date costs are proportional to
the cost rate passed to the driver (with `cost_rate = 0` giving zero cost).
The embedded `run` is literally constant in its `cost` argument: line 299
rebinds the local `cost` to `self.transaction_cost(port_weights, rets)`
without ever forwarding the caller's rate (the call would use the 0.0005
default), and the run aborts at line 296 before that anyway, so two runs
differing only in the cost rate are indistinguishable. -/
theorem C6_run_ignores_cost_rate (B : AssetAllocationBacktesting)
    (solver : Solver) (cs_model : String) (ts_model : Option String)
    (c1 c2 : PFloat) :
    B.run solver cs_model ts_model c1 = B.run solver cs_model ts_model c2 := rfl

/-- A strategy key outside the six recognized ones falls through every
branch of the dispatch: no allocator is invoked, nothing is recorded. -/
theorem csAlloc_unknown (solver : Solver) (erRow volRow : List PFloat)
    (covMat : List (List PFloat)) (cs : String)
    (h1 : cs ≠ "EW") (h2 : cs ≠ "MSR") (h3 : cs ≠ "GMV") (h4 : cs ≠ "MDP")
    (h5 : cs ≠ "RP") (h6 : cs ≠ "EMV") :
    csAlloc solver erRow volRow covMat cs = none := by
  simp [csAlloc, h1, h2, h3, h4, h5, h6]

/-- With an unrecognized cross-sectional key the whole loop of line 267
completes without invoking any allocator and leaves the weight dictionary
empty. -/
theorem csLoopStage_unknown (B : AssetAllocationBacktesting) (solver : Solver)
    (cs : String)
    (h1 : cs ≠ "EW") (h2 : cs ≠ "MSR") (h3 : cs ≠ "GMV") (h4 : cs ≠ "MDP")
    (h5 : cs ≠ "RP") (h6 : cs ≠ "EMV") :
    csLoopStage B solver cs = .ok [] := by
  rw [csLoopStage]
  have main : ∀ (l : List Nat) (acc : List (List PFloat)),
      (l.foldlM (fun acc i =>
        match csAlloc solver (B.er.getD i []) (B.vol.getD i []) (B.cov.getD i [])
            cs with
        | none => Except.ok acc
        | some (.ok w) => Except.ok (acc ++ [w])
        | some (.error e) => Except.error e) acc :
        Except PyError (List (List PFloat))) = .ok acc := by
    intro l
    induction l with
    | nil => intro acc; rfl
    | cons x xs ih =>
        intro acc
        rw [List.foldlM_cons,
          csAlloc_unknown solver _ _ _ cs h1 h2 h3 h4 h5 h6]
        exact ih acc
  exact main _ []

/-- Claim C7 counterexample.  The claim says an unknown strategy key makes
the driver fail fatally at configuration time, before any computation.
Concretely, `run('ZZZ', None, 0.0005)` on the sample table is
indistinguishable from the fully valid `run('EW', None, 0.0005)`: both end
in the implementation's own `NameError: cs_weight` from the combine step,
and with the unknown key the whole allocation loop has already completed
(vacuously, leaving an empty weight history) — no configuration-time
validation or error exists. -/
theorem C7_unknown_key_not_rejected :
    sampleBacktest.run trivialSolver "ZZZ" none (.fin (1 / 2000)) =
        sampleBacktest.run trivialSolver "EW" none (.fin (1 / 2000)) ∧
      sampleBacktest.run trivialSolver "ZZZ" none (.fin (1 / 2000)) =
        .error (.nameError "cs_weight") ∧
      csLoopStage sampleBacktest trivialSolver "ZZZ" = .ok [] := by
  refine ⟨?_, ?_, ?_⟩ <;> with_unfolding_all decide

/-- Claim C7 as amended: the driver never validates strategy keys.  With a
cross-sectional key outside the six recognized ones (and an overlay key
that is `None` or likewise unrecognized), the allocation loop runs to
completion recording nothing, the return computation proceeds, and the run
aborts only with the `cs_weight` NameError of the combine step — the same
failure every configuration reaches — not with a configuration error. -/
theorem C7_unknown_key_silent (B : AssetAllocationBacktesting)
    (solver : Solver) (cs : String) (ts : Option String) (cost : PFloat)
    (hcs : cs ∉ (["EW", "MSR", "GMV", "MDP", "RP", "EMV"] : List String))
    (hts : ∀ s, ts = some s → s ≠ "VT" ∧ s ≠ "CVT") :
    B.run solver cs ts cost = .error (.nameError "cs_weight") ∧
      csLoopStage B solver cs = .ok [] := by
  simp only [List.mem_cons, List.not_mem_nil, or_false] at hcs
  push_neg at hcs
  obtain ⟨h1, h2, h3, h4, h5, h6⟩ := hcs
  have hloop := csLoopStage_unknown B solver cs h1 h2 h3 h4 h5 h6
  refine ⟨?_, hloop⟩
  rw [AssetAllocationBacktesting.run, csWeightsStage, hloop]
  cases ts with
  | none => rfl
  | some s =>
      obtain ⟨hv, hc⟩ := hts s rfl
      simp only [tsStage, if_neg hv, if_neg hc]
      rfl

/-- Witness for C7's amended theorem at a concrete input. -/
theorem C7_unknown_key_silent_witness :
    sampleBacktest.run trivialSolver "XX" (some "YY") (.fin (1 / 2000)) =
        .error (.nameError "cs_weight") ∧
      csLoopStage sampleBacktest trivialSolver "XX" = .ok [] :=
  C7_unknown_key_silent sampleBacktest trivialSolver "XX" (some "YY")
    (.fin (1 / 2000)) (by decide)
    (by intro s hs; cases hs; exact ⟨by decide, by decide⟩)

/-- Claim C8 counterexample.  The claim says `emv` guards zero volatility
(equal-weight fallback or explicit zero weight) and never returns NaN or
infinity.  On the volatility vector `[0, 1]` the unguarded division gives
`inv_vol = [inf, 1]`, `inv_vol.sum() = inf`, and weights
`[inf/inf, 1/inf] = [NaN, 0]`: the degenerate asset's weight is NaN, and
NaN is in the returned vector. -/
theorem C8_emv_zero_vol_nan :
    CrossSectional.emv [.fin 0, .fin 1] = [.nan, .fin 0] ∧
      PFloat.nan ∈ CrossSectional.emv [.fin 0, .fin 1] := by
  refine ⟨?_, ?_⟩ <;> with_unfolding_all decide

/-- Claim C8 as amended: `emv` has no guard at all.  On any finite
volatility vector containing a zero entry, every zero-volatility asset
receives NaN (`inf / inf`) and every other asset receives 0 (finite over
`inf`), so the returned vector always contains NaN. -/
theorem C8_emv_unguarded (qs : List ℚ) (h0 : (0 : ℚ) ∈ qs) :
    CrossSectional.emv (qs.map .fin) =
        qs.map (fun q => if q = 0 then PFloat.nan else .fin 0) ∧
      PFloat.nan ∈ CrossSectional.emv (qs.map .fin) := by
  have hinv : (qs.map PFloat.fin).map (fun v => PFloat.fin 1 / v) =
      qs.map (fun q => if q = 0 then PFloat.inf else .fin (1 / q)) := by
    rw [List.map_map]
    apply List.map_congr_left
    intro q _
    by_cases h : q = 0
    · simp only [Function.comp_apply, h, if_pos rfl]
      exact one_div_fin_zero
    · simp only [Function.comp_apply, if_neg h]
      exact fin_div_fin 1 q h
  have hsum : listSum (qs.map (fun q => if q = 0 then PFloat.inf else .fin (1 / q))) =
      .inf := by
    apply listSum_eq_inf
    · intro x hx
      obtain ⟨q, _, rfl⟩ := List.mem_map.mp hx
      by_cases h : q = 0
      · left; simp [h]
      · right; exact ⟨1 / q, by simp [h]⟩
    · exact List.mem_map.mpr ⟨0, h0, by simp⟩
  have hmain : CrossSectional.emv (qs.map .fin) =
      qs.map (fun q => if q = 0 then PFloat.nan else .fin 0) := by
    simp only [CrossSectional.emv]
    rw [hinv, hsum, List.map_map]
    apply List.map_congr_left
    intro q _
    by_cases h : q = 0
    · simp only [Function.comp_apply, h, if_pos rfl]
      exact inf_div_inf
    · simp only [Function.comp_apply, if_neg h]
      exact fin_div_inf (1 / q)
  refine ⟨hmain, ?_⟩
  rw [hmain]
  exact List.mem_map.mpr ⟨0, h0, by simp⟩

/-- Witness for C8's amended theorem at a concrete input. -/
theorem C8_emv_unguarded_witness :
    CrossSectional.emv (([0, 2] : List ℚ).map .fin) =
        ([0, 2] : List ℚ).map (fun q => if q = 0 then PFloat.nan else .fin 0) ∧
      PFloat.nan ∈ CrossSectional.emv (([0, 2] : List ℚ).map .fin) :=
  C8_emv_unguarded [0, 2] (by decide)

/-- Claim C9 (confirmed).  On a non-empty volatility vector whose entries
all equal the same positive value, `emv` returns exactly the equal-weight
vector `ew` produces on a length-`n` expected-return vector: every entry is
`1/n`. -/
theorem C9_emv_equal_vol_is_ew (n : Nat) (v : ℚ) (er : List PFloat)
    (hn : 0 < n) (hv : 0 < v) (hlen : er.length = n) :
    CrossSectional.emv (List.replicate n (.fin v)) =
        List.replicate n (.fin (1 / (n : ℚ))) ∧
      CrossSectional.ew er = .ok (List.replicate n (.fin (1 / (n : ℚ)))) := by
  have hv0 : v ≠ 0 := ne_of_gt hv
  have hn0 : (n : ℚ) ≠ 0 := Nat.cast_ne_zero.mpr hn.ne.symm
  have hinv : (List.replicate n (PFloat.fin v)).map (fun x => PFloat.fin 1 / x) =
      List.replicate n (PFloat.fin (1 / v)) := by
    rw [List.map_replicate, fin_div_fin 1 v hv0]
  have hsum : listSum (List.replicate n (PFloat.fin (1 / v))) =
      .fin ((n : ℚ) * (1 / v)) := by
    have hrep : List.replicate n (PFloat.fin (1 / v)) =
        (List.replicate n ((1 : ℚ) / v)).map .fin := by
      rw [List.map_replicate]
    rw [hrep, listSum_map_fin, List.sum_replicate, nsmul_eq_mul]
  have hq : (1 : ℚ) / v / ((n : ℚ) * (1 / v)) = 1 / (n : ℚ) := by
    field_simp
  constructor
  · simp only [CrossSectional.emv]
    rw [hinv, hsum, List.map_replicate,
      fin_div_fin _ _ (by positivity : (n : ℚ) * (1 / v) ≠ 0), hq]
  · rw [CrossSectional.ew, hlen]
    rw [if_neg hn.ne.symm, List.map_replicate, fin_mul_fin, one_mul]

/-- Witness for C9 at a concrete input. -/
theorem C9_emv_equal_vol_is_ew_witness :
    CrossSectional.emv (List.replicate 2 (.fin 3)) =
        List.replicate 2 (.fin (1 / ((2 : Nat) : ℚ))) ∧
      CrossSectional.ew [.nan, .fin (-5)] =
        .ok (List.replicate 2 (.fin (1 / ((2 : Nat) : ℚ)))) :=
  C9_emv_equal_vol_is_ew 2 3 [.nan, .fin (-5)] (by decide) (by decide) (by decide)

/-- Claim C10 (confirmed).  `ew` reads only the length of its input: any
two expected-return vectors of the same positive length — whatever their
entries, NaN and negative values included — yield identical weight
vectors. -/
theorem C10_ew_value_independence (er1 er2 : List PFloat)
    (hlen : er1.length = er2.length) (hpos : 0 < er1.length) :
    CrossSectional.ew er1 = CrossSectional.ew er2 := by
  rw [CrossSectional.ew, CrossSectional.ew, hlen]

/-- Witness for C10 at a concrete input. -/
theorem C10_ew_value_independence_witness :
    CrossSectional.ew [.nan, .fin 0] = CrossSectional.ew [.fin 5, .fin (-3)] :=
  C10_ew_value_independence [.nan, .fin 0] [.fin 5, .fin (-3)] (by decide) (by decide)

/-- Lifting a pointwise rational operation through the `fin` embedding. -/
theorem zipWith_fin_lift (f : ℚ → ℚ → ℚ) (g : PFloat → PFloat → PFloat)
    (hfg : ∀ a b, g (.fin a) (.fin b) = .fin (f a b)) :
    ∀ (xs ys : List ℚ),
      List.zipWith g (xs.map .fin) (ys.map .fin) = (List.zipWith f xs ys).map .fin := by
  intro xs
  induction xs with
  | nil => intro ys; rfl
  | cons a as ih =>
      intro ys
      cases ys with
      | nil => rfl
      | cons b bs => simp [hfg, ih]

/-- Zipping against a replicated constant on the left. -/
theorem zipWith_replicate_take {α β γ : Type} (f : α → β → γ) (a : α) :
    ∀ (n : Nat) (ys : List β),
      List.zipWith f (List.replicate n a) ys = (ys.take n).map (f a) := by
  intro n
  induction n with
  | zero => intro ys; rfl
  | succ m ih =>
      intro ys
      cases ys with
      | nil => rfl
      | cons y ys => simp [List.replicate_succ, ih]

/-- Zipping against a replicated constant on the right. -/
theorem zipWith_take_replicate {α β γ : Type} (f : α → β → γ) (b : β) :
    ∀ (n : Nat) (xs : List α),
      List.zipWith f xs (List.replicate n b) = (xs.take n).map (fun x => f x b) := by
  intro n
  induction n with
  | zero => intro xs; cases xs <;> rfl
  | succ m ih =>
      intro xs
      cases xs with
      | nil => rfl
      | cons x xs => simp [List.replicate_succ, ih]

/-- Subtracting NaN gives NaN, whatever the left operand. -/
theorem sub_nan_eq (w : PFloat) : w - PFloat.nan = .nan := by
  cases w <;> rfl

/-- NaN times anything is NaN. -/
theorem nan_mul (x : PFloat) : PFloat.nan * x = .nan := by
  show PFloat.mul .nan x = .nan
  cases x <;> rfl

/-- The indeterminate quotient: `0.0 / 0.0 = NaN`. -/
theorem fin_zero_div_fin_zero : PFloat.fin 0 / PFloat.fin 0 = .nan := by
  show PFloat.div (.fin 0) (.fin 0) = .nan
  simp [PFloat.div]

/-- `fillna(0)` replaces NaN by 0. -/
theorem fillna0_nan : PFloat.nan.fillna0 = .fin 0 := rfl

/-- `fillna(0)` keeps finite values. -/
theorem fillna0_fin (a : ℚ) : (PFloat.fin a).fillna0 = .fin a := rfl

/-- Factoring a constant multiplier out of a zipped sum. -/
theorem sum_zipWith_mul_right (f : ℚ → ℚ → ℚ) (c : ℚ) :
    ∀ (X D : List ℚ),
      (List.zipWith (fun x y => f x y * c) X D).sum = (List.zipWith f X D).sum * c := by
  intro X
  induction X with
  | nil => intro D; simp
  | cons x xs ih =>
      intro D
      cases D with
      | nil => simp
      | cons d ds => simp [ih, add_mul]

/-- Claim C5 (confirmed).  For an aligned weight history and return table
(finite entries, rectangular with `n` assets, as many weight rows as sliced
return rows, and well-defined drift renormalizations), `transaction_cost`
computes per date exactly what the claim says: (i) the first eligible
date's cost row is identically 0 (no prior position: the zero-filled
shifted row drifts to `0/0 = NaN` and the final `fillna(0)` clears it);
(ii) at every later date `t` the per-asset cost is
`|target_weight(t) - drifted_weight(t)| * cost_rate` where the drifted
weights are the prior row grown by one period of returns and renormalized
to sum to 1 (`driftWeights`); (iii) the date's total cost is the cost rate
times the L1 turnover against those drifted weights; and (iv) a date whose
target weights equal the drifted weights has a cost row of exactly 0. -/
theorem C5_transaction_cost_turnover (B : AssetAllocationBacktesting)
    (Wq Rq : List (List ℚ)) (c : ℚ) (n : Nat)
    (hWn : ∀ row ∈ Wq, row.length = n)
    (hRn : ∀ row ∈ Rq, row.length = n)
    (hlen : Wq.length = (Rq.drop (B.period - 1)).length)
    (hne : Wq ≠ [])
    (hden : ∀ t, t + 1 < Wq.length →
      (List.zipWith (fun w r => w * (1 + r)) (Wq.getD t [])
        ((Rq.drop (B.period - 1)).getD (t + 1) [])).sum ≠ 0) :
    (B.transaction_cost (Wq.map (fun r => r.map .fin))
        (Rq.map (fun r => r.map .fin)) (.fin c)).getD 0 [] =
      List.replicate n (.fin 0) ∧
    (∀ t, t + 1 < Wq.length →
      (B.transaction_cost (Wq.map (fun r => r.map .fin))
          (Rq.map (fun r => r.map .fin)) (.fin c)).getD (t + 1) [] =
        (List.zipWith (fun w d => |w - d| * c) (Wq.getD (t + 1) [])
          (driftWeights Wq Rq B.period (t + 1))).map .fin) ∧
    (∀ t, t + 1 < Wq.length →
      listSum ((B.transaction_cost (Wq.map (fun r => r.map .fin))
          (Rq.map (fun r => r.map .fin)) (.fin c)).getD (t + 1) []) =
        .fin ((List.zipWith (fun w d => |w - d|) (Wq.getD (t + 1) [])
          (driftWeights Wq Rq B.period (t + 1))).sum * c)) ∧
    (∀ t, t + 1 < Wq.length →
      Wq.getD (t + 1) [] = driftWeights Wq Rq B.period (t + 1) →
      (B.transaction_cost (Wq.map (fun r => r.map .fin))
          (Rq.map (fun r => r.map .fin)) (.fin c)).getD (t + 1) [] =
        List.replicate n (.fin 0)) := by
  obtain ⟨w0, Wtl, rfl⟩ : ∃ a l, Wq = a :: l := by
    cases Wq with
    | nil => exact absurd rfl hne
    | cons a l => exact ⟨a, l, rfl⟩
  have htc : B.transaction_cost ((w0 :: Wtl).map (fun r => r.map PFloat.fin))
      (Rq.map (fun r => r.map PFloat.fin)) (.fin c) =
      (List.zipWith (fun wrow prow =>
          List.zipWith (fun w p => (w - p).abs * PFloat.fin c) wrow prow)
        ((w0 :: Wtl).map (fun r => r.map PFloat.fin))
        ((List.zipWith (fun wrow rrow =>
            List.zipWith (fun w r => w * (PFloat.fin 1 + r)) wrow rrow)
          (List.replicate (w0.map PFloat.fin).length (PFloat.fin 0) ::
            ((w0 :: Wtl).map (fun r => r.map PFloat.fin)).dropLast)
          ((Rq.map (fun r => r.map PFloat.fin)).drop (B.period - 1))).map
            (fun row => row.map (fun x => x / listSum row)))).map
        (fun row => row.map PFloat.fillna0) := rfl
  rw [← List.map_drop] at htc
  have hlentc : (B.transaction_cost ((w0 :: Wtl).map (fun r => r.map PFloat.fin))
      (Rq.map (fun r => r.map PFloat.fin)) (.fin c)).length = (w0 :: Wtl).length := by
    rw [htc]
    simp only [List.length_map, List.length_zipWith, List.length_cons,
      List.length_dropLast, List.length_replicate]
    have hlen2 := hlen
    simp only [List.length_cons] at hlen2
    omega
  have hrow : ∀ t, t + 1 < (w0 :: Wtl).length →
      (B.transaction_cost ((w0 :: Wtl).map (fun r => r.map PFloat.fin))
          (Rq.map (fun r => r.map PFloat.fin)) (.fin c)).getD (t + 1) [] =
        (List.zipWith (fun w d => |w - d| * c) ((w0 :: Wtl).getD (t + 1) [])
          (driftWeights (w0 :: Wtl) Rq B.period (t + 1))).map .fin := by
    intro t ht
    have htL : t < (w0 :: Wtl).length := Nat.lt_of_succ_lt ht
    have htR : t + 1 < (Rq.drop (B.period - 1)).length := hlen ▸ ht
    have htl : t < Wtl.length := by
      have h2 := ht
      simp only [List.length_cons] at h2
      omega
    rw [List.getD_eq_getElem _ _ (by rw [hlentc]; exact ht)]
    simp only [htc]
    simp only [List.getElem_map, List.getElem_zipWith, List.getElem_cons_succ,
      List.getElem_dropLast]
    have hfg1 : ∀ (a b : ℚ),
        PFloat.fin a * (PFloat.fin 1 + PFloat.fin b) = PFloat.fin (a * (1 + b)) := by
      intro a b; rw [fin_add_fin, fin_mul_fin]
    have hfg2 : ∀ (a b : ℚ),
        (PFloat.fin a - PFloat.fin b).abs * PFloat.fin c = PFloat.fin (|a - b| * c) := by
      intro a b; rw [fin_sub_fin, abs_fin, fin_mul_fin]
    rw [zipWith_fin_lift (fun w r => w * (1 + r))
      (fun w r => w * (PFloat.fin 1 + r)) hfg1, listSum_map_fin, List.map_map]
    set gq := List.zipWith (fun w r => w * (1 + r)) ((w0 :: Wtl)[t])
      ((List.drop (B.period - 1) Rq)[t + 1]) with hgq
    have hS : gq.sum ≠ 0 := by
      have h0 := hden t ht
      rwa [List.getD_eq_getElem _ _ htL, List.getD_eq_getElem _ _ htR] at h0
    have hprev : List.map ((fun x => x / PFloat.fin gq.sum) ∘ PFloat.fin) gq =
        List.map PFloat.fin (gq.map (fun a => a / gq.sum)) := by
      rw [List.map_map]
      apply List.map_congr_left
      intro a _
      simp only [Function.comp_apply]
      exact fin_div_fin a gq.sum hS
    rw [hprev, zipWith_fin_lift (fun w d => |w - d| * c)
      (fun w p => (w - p).abs * PFloat.fin c) hfg2, List.map_map]
    have hfill : List.map (PFloat.fillna0 ∘ PFloat.fin)
        (List.zipWith (fun w d => |w - d| * c) Wtl[t]
          (gq.map (fun a => a / gq.sum))) =
        List.map PFloat.fin (List.zipWith (fun w d => |w - d| * c) Wtl[t]
          (gq.map (fun a => a / gq.sum))) := by
      apply List.map_congr_left
      intro a _
      rfl
    rw [hfill]
    rw [List.getD_eq_getElem _ _ ht, List.getElem_cons_succ]
    congr 1
    simp only [driftWeights, Nat.add_sub_cancel]
    rw [List.getD_eq_getElem _ _ htL, List.getD_eq_getElem _ _ htR]
  refine ⟨?_, hrow, ?_, ?_⟩
  · have h0W : 0 < (w0 :: Wtl).length := by simp
    have h0R : 0 < (Rq.drop (B.period - 1)).length := hlen ▸ h0W
    rw [List.getD_eq_getElem _ _ (by rw [hlentc]; exact h0W)]
    simp only [htc]
    simp only [List.getElem_map, List.getElem_zipWith, List.getElem_cons_zero]
    have hw0 : w0.length = n := hWn w0 (by simp)
    have hr0 : ((Rq.drop (B.period - 1))[0]).length = n := by
      rw [List.getElem_drop]
      exact hRn _ (List.getElem_mem _)
    have hmw : (List.map PFloat.fin w0).length = n := by rw [List.length_map, hw0]
    have hmr : (List.map PFloat.fin ((Rq.drop (B.period - 1))[0])).length = n := by
      rw [List.length_map, hr0]
    have hgrow : List.zipWith (fun w r => w * (PFloat.fin 1 + r))
        (List.replicate (List.map PFloat.fin w0).length (PFloat.fin 0))
        (List.map PFloat.fin ((Rq.drop (B.period - 1))[0])) =
        List.replicate n (PFloat.fin 0) := by
      rw [zipWith_replicate_take, hmw, ← hmr, List.take_length, List.map_map]
      have hz : ∀ b ∈ (Rq.drop (B.period - 1))[0],
          ((fun r => PFloat.fin 0 * (PFloat.fin 1 + r)) ∘ PFloat.fin) b =
            PFloat.fin 0 := by
        intro b _
        simp only [Function.comp_apply, fin_add_fin, fin_mul_fin, zero_mul]
      rw [List.map_congr_left hz,
        show (fun _ : ℚ => PFloat.fin 0) = Function.const ℚ (PFloat.fin 0) from rfl,
        List.map_const]
      simp [hr0, hmr]
    rw [hgrow]
    have hsum0 : listSum (List.replicate n (PFloat.fin 0)) = .fin 0 := by
      rw [show List.replicate n (PFloat.fin 0) =
          (List.replicate n (0 : ℚ)).map PFloat.fin by rw [List.map_replicate]]
      rw [listSum_map_fin, List.sum_replicate, smul_zero]
    rw [hsum0, List.map_replicate, fin_zero_div_fin_zero]
    have htk : (List.map PFloat.fin w0).take n = List.map PFloat.fin w0 := by
      rw [← hmw, List.take_length]
    rw [zipWith_take_replicate, htk, List.map_map, List.map_map]
    have hcost : ∀ b ∈ w0,
        ((PFloat.fillna0 ∘ fun x => (x - PFloat.nan).abs * PFloat.fin c) ∘
          PFloat.fin) b = PFloat.fin 0 := by
      intro b _
      simp only [Function.comp_apply, sub_nan_eq, abs_nan, nan_mul, fillna0_nan]
    rw [List.map_congr_left hcost,
      show (fun _ : ℚ => PFloat.fin 0) = Function.const ℚ (PFloat.fin 0) from rfl,
      List.map_const, hw0]
  · intro t ht
    rw [hrow t ht, listSum_map_fin]
    congr 1
    exact sum_zipWith_mul_right (fun w d => |w - d|) c _ _
  · intro t ht heq
    have htL : t < (w0 :: Wtl).length := Nat.lt_of_succ_lt ht
    have htR : t + 1 < (Rq.drop (B.period - 1)).length := hlen ▸ ht
    have hdlen : (driftWeights (w0 :: Wtl) Rq B.period (t + 1)).length = n := by
      simp only [driftWeights, Nat.add_sub_cancel, List.length_map,
        List.length_zipWith]
      rw [List.getD_eq_getElem _ _ htL, List.getD_eq_getElem _ _ htR]
      have e1 : ((w0 :: Wtl)[t]).length = n := hWn _ (List.getElem_mem htL)
      have e2 : ((Rq.drop (B.period - 1))[t + 1]).length = n := by
        rw [List.getElem_drop]
        exact hRn _ (List.getElem_mem _)
      rw [e1, e2, min_self]
    rw [hrow t ht, heq, List.zipWith_same, List.map_map]
    have hzero : ∀ b ∈ driftWeights (w0 :: Wtl) Rq B.period (t + 1),
        (PFloat.fin ∘ fun x => |x - x| * c) b = PFloat.fin 0 := by
      intro b _
      simp [Function.comp_apply]
    rw [List.map_congr_left hzero,
      show (fun _ : ℚ => PFloat.fin 0) = Function.const ℚ (PFloat.fin 0) from rfl,
      List.map_const, hdlen]

/-- Witness for C5 at a concrete input (window 1, one asset, two dates). -/
theorem C5_transaction_cost_turnover_witness :
    ((⟨[], 1⟩ : AssetAllocationBacktesting).transaction_cost
        (([[1], [1]] : List (List ℚ)).map (fun r => r.map .fin))
        (([[1 / 10], [0]] : List (List ℚ)).map (fun r => r.map .fin))
        (.fin (1 / 2000))).getD 0 [] = List.replicate 1 (.fin 0) ∧
    (∀ t, t + 1 < ([[1], [1]] : List (List ℚ)).length →
      ((⟨[], 1⟩ : AssetAllocationBacktesting).transaction_cost
          (([[1], [1]] : List (List ℚ)).map (fun r => r.map .fin))
          (([[1 / 10], [0]] : List (List ℚ)).map (fun r => r.map .fin))
          (.fin (1 / 2000))).getD (t + 1) [] =
        (List.zipWith (fun w d => |w - d| * (1 / 2000))
          (([[1], [1]] : List (List ℚ)).getD (t + 1) [])
          (driftWeights [[1], [1]] [[1 / 10], [0]] 1 (t + 1))).map .fin) ∧
    (∀ t, t + 1 < ([[1], [1]] : List (List ℚ)).length →
      listSum (((⟨[], 1⟩ : AssetAllocationBacktesting).transaction_cost
          (([[1], [1]] : List (List ℚ)).map (fun r => r.map .fin))
          (([[1 / 10], [0]] : List (List ℚ)).map (fun r => r.map .fin))
          (.fin (1 / 2000))).getD (t + 1) []) =
        .fin ((List.zipWith (fun w d => |w - d|)
          (([[1], [1]] : List (List ℚ)).getD (t + 1) [])
          (driftWeights [[1], [1]] [[1 / 10], [0]] 1 (t + 1))).sum * (1 / 2000))) ∧
    (∀ t, t + 1 < ([[1], [1]] : List (List ℚ)).length →
      ([[1], [1]] : List (List ℚ)).getD (t + 1) [] =
        driftWeights [[1], [1]] [[1 / 10], [0]] 1 (t + 1) →
      ((⟨[], 1⟩ : AssetAllocationBacktesting).transaction_cost
          (([[1], [1]] : List (List ℚ)).map (fun r => r.map .fin))
          (([[1 / 10], [0]] : List (List ℚ)).map (fun r => r.map .fin))
          (.fin (1 / 2000))).getD (t + 1) [] = List.replicate 1 (.fin 0)) :=
  C5_transaction_cost_turnover ⟨[], 1⟩ [[1], [1]] [[1 / 10], [0]] (1 / 2000) 1
    (by decide) (by decide) (by decide) (by decide)
    (by
      intro t ht
      simp only [List.length_cons, List.length_nil] at ht
      have h0 : t = 0 := by omega
      subst h0
      with_unfolding_all decide)
